import Mathlib

/-!
Verification of the custom EVM indexer's ingestion-and-query engine.

The definitions below are a shallow embedding of the TypeScript sources:
* the ingestion POST handler (`extractEventSignatures`, the 500-block chunk
  loop of `fetchLogsInBatches`, the 50,000-block span ceiling, the final sort
  of `allLogs`);
* the persistence layer `DatabaseService` (`storeEvents` over the unique key
  `(transactionHash, logIndex)`, `createOrUpdateContract`,
  `getEventsWithPagination`, `getEventsSmartRange`);
* the GraphQL resolver `getEvents` (pagination arithmetic).

JavaScript `BigInt` block heights are modelled as `Nat` where the source only
ever holds non-negative values, and as `Int` where the source can produce a
negative intermediate (the `toBlockNum - fromBlockNum` span and the
`toBlock - 999` smart-range lower bound).  Network calls are modelled as
explicit oracles (`fetch`, `latestNetworkBlock`); the database is a list of
rows.
-/

namespace Indexer

/-- One fetched log record (the fields of a viem `Log` that the engine
reads: block height, log index, transaction hash, plus the `eventName` tag
the fetcher adds). -/
structure LogRec where
  blockNumber : Nat
  logIndex : Nat
  transactionHash : String
  eventName : String
deriving DecidableEq

/-- The `ABIInput` shape of `route.ts`: one event parameter. -/
structure ABIInput where
  type : String
  name : String
  indexed : Option Bool
deriving DecidableEq

/-- The `ABIItem` shape of `route.ts`: one entry of a parsed contract ABI. -/
structure ABIItem where
  type : String
  name : Option String
  inputs : Option (List ABIInput)
deriving DecidableEq

/-- The function `extractEventSignatures` of `route.ts`: keep the ABI entries that are
events whose name is one of the tracked names, and pair each with its name. -/
def extractEventSignatures (abi : List ABIItem) (eventsToTrack : List String) :
    List (String × ABIItem) :=
  (abi.filter (fun item =>
    item.type == "event" && item.name.isSome &&
      (match item.name with
       | some n => eventsToTrack.contains n
       | none => false))).map
    (fun event => (event.name.getD "", event))

/-- The constant `MAX_BLOCKS_PER_REQUEST` of `route.ts` (the Alchemy 500-block cap). -/
def MAX_BLOCKS_PER_REQUEST : Nat := 500

/-- The `while (currentFromBlock <= toBlockNum)` loop skeleton of
`fetchLogsInBatches`: the sequence of closed block intervals it visits.
`min (currentFromBlock + MAX_BLOCKS_PER_REQUEST - 1) toBlockNum` is the
source's `currentToBlock > toBlockNum ? toBlockNum : currentToBlock`. -/
def chunkLoop (currentFromBlock toBlockNum : Nat) : List (Nat × Nat) :=
  if h : currentFromBlock ≤ toBlockNum then
    (currentFromBlock, min (currentFromBlock + MAX_BLOCKS_PER_REQUEST - 1) toBlockNum) ::
      chunkLoop (min (currentFromBlock + MAX_BLOCKS_PER_REQUEST - 1) toBlockNum + 1) toBlockNum
  else []
termination_by toBlockNum + 1 - currentFromBlock
decreasing_by
  simp only [MAX_BLOCKS_PER_REQUEST]
  omega

theorem chunkLoop_eq_cons (c t : Nat) (h : c ≤ t) :
    chunkLoop c t = (c, min (c + MAX_BLOCKS_PER_REQUEST - 1) t) ::
      chunkLoop (min (c + MAX_BLOCKS_PER_REQUEST - 1) t + 1) t := by
  rw [chunkLoop.eq_def]
  exact dif_pos h

theorem chunkLoop_eq_nil (c t : Nat) (h : ¬ c ≤ t) : chunkLoop c t = [] := by
  rw [chunkLoop.eq_def]
  exact dif_neg h

/-- The chunk intervals cover exactly the requested closed interval. -/
theorem chunkLoop_cover (c t x : Nat) :
    (∃ p ∈ chunkLoop c t, p.1 ≤ x ∧ x ≤ p.2) ↔ (c ≤ x ∧ x ≤ t) := by
  by_cases h : c ≤ t
  · rw [chunkLoop_eq_cons c t h]
    have ih := chunkLoop_cover (min (c + MAX_BLOCKS_PER_REQUEST - 1) t + 1) t x
    simp only [List.mem_cons, MAX_BLOCKS_PER_REQUEST] at *
    constructor
    · rintro ⟨p, rfl | hp, hx1, hx2⟩
      · simp only at hx1 hx2
        omega
      · have := ih.mp ⟨p, hp, hx1, hx2⟩
        omega
    · rintro ⟨hcx, hxt⟩
      by_cases hxm : x ≤ min (c + 500 - 1) t
      · exact ⟨(c, min (c + 500 - 1) t), Or.inl rfl, hcx, hxm⟩
      · obtain ⟨p, hp, hx⟩ := ih.mpr ⟨by omega, hxt⟩
        exact ⟨p, Or.inr hp, hx⟩
  · rw [chunkLoop_eq_nil c t h]
    simp only [List.not_mem_nil, false_and, exists_const, false_iff, not_and]
    omega
termination_by t + 1 - c
decreasing_by
  simp only [MAX_BLOCKS_PER_REQUEST]
  omega

/-- Consecutive chunks are contiguous (the next starts one past the last). -/
theorem chunkLoop_chain (c t : Nat) :
    (chunkLoop c t).Chain' (fun p q => q.1 = p.2 + 1) := by
  by_cases h : c ≤ t
  · rw [chunkLoop_eq_cons c t h, List.chain'_cons']
    refine ⟨?_, chunkLoop_chain (min (c + MAX_BLOCKS_PER_REQUEST - 1) t + 1) t⟩
    intro q hq
    by_cases h2 : min (c + MAX_BLOCKS_PER_REQUEST - 1) t + 1 ≤ t
    · rw [chunkLoop_eq_cons _ t h2] at hq
      simp only [List.head?_cons, Option.mem_def, Option.some.injEq] at hq
      rw [← hq]
    · rw [chunkLoop_eq_nil _ t h2] at hq
      simp at hq
  · rw [chunkLoop_eq_nil c t h]
    exact List.chain'_nil
termination_by t + 1 - c
decreasing_by
  simp only [MAX_BLOCKS_PER_REQUEST]
  omega

/-- Every chunk is a non-empty interval of at most `MAX_BLOCKS_PER_REQUEST`
blocks. -/
theorem chunkLoop_bounds (c t : Nat) :
    ∀ p ∈ chunkLoop c t, p.1 ≤ p.2 ∧ p.2 + 1 - p.1 ≤ MAX_BLOCKS_PER_REQUEST := by
  by_cases h : c ≤ t
  · rw [chunkLoop_eq_cons c t h]
    intro p hp
    rw [List.mem_cons] at hp
    rcases hp with rfl | hp
    · simp only [MAX_BLOCKS_PER_REQUEST] at *
      omega
    · exact chunkLoop_bounds (min (c + MAX_BLOCKS_PER_REQUEST - 1) t + 1) t p hp
  · rw [chunkLoop_eq_nil c t h]
    intro p hp
    simp at hp
termination_by t + 1 - c
decreasing_by
  simp only [MAX_BLOCKS_PER_REQUEST]
  omega

/-- Fuel-bounded count of halvings until the value drops below `2 ^ 53`:
the exponent of the unit in the last place of the IEEE-754 double nearest to
`n` (`0` for exactly representable integers).  The fuel `1100` covers every
finite double (exponents up to `1023`), far beyond the spec's 64-bit block
heights. -/
def ulpExpAux : Nat → Nat → Nat
  | 0, _ => 0
  | fuel + 1, n => if n < 2 ^ 53 then 0 else ulpExpAux fuel (n / 2) + 1

def ulpExp (n : Nat) : Nat := ulpExpAux 1100 n

/-- Round `n` to the nearest multiple of `2 ^ u`, ties to the even
multiple (IEEE-754 round-to-nearest-even at unit `2 ^ u`). -/
def roundNearestEven (n u : Nat) : Nat :=
  let p := 2 ^ u
  let q := n / p
  let r := n % p
  if r * 2 < p then q * p
  else if r * 2 > p then (q + 1) * p
  else (if q % 2 = 0 then q else q + 1) * p

/-- JavaScript `Number(...)` on a non-negative integer (`BigInt` or larger
integral value): the value of the nearest IEEE-754 double — the identity
below `2 ^ 53`, round-to-nearest-even at the binade's unit in the last place
above it.  Distinct block heights at or above `2 ^ 53` can be merged. -/
def jsNumber (n : Nat) : Nat := roundNearestEven n (ulpExp n)

/-- The comparator of `allLogs.sort`: `Number(a.blockNumber) -
Number(b.blockNumber)` when non-zero, `Number(a.logIndex) -
Number(b.logIndex)` otherwise.  Both operands pass through `jsNumber`
(`blockNumber` is a BigInt the source converts with `Number`; `logIndex`
already sits in a number-typed field, whose integral value `jsNumber`
reproduces).  The double subtraction of two integer-valued doubles is
sign-faithful and is zero exactly when they are equal, so exact `Int`
subtraction of the rounded values models the comparator's sign and zero
tests. -/
def logCompare (a b : LogRec) : Int :=
  if (jsNumber a.blockNumber : Int) - (jsNumber b.blockNumber : Int) ≠ 0 then
    (jsNumber a.blockNumber : Int) - (jsNumber b.blockNumber : Int)
  else
    (jsNumber a.logIndex : Int) - (jsNumber b.logIndex : Int)

/-- The order induced by `logCompare`: `a` sorts no later than `b`. -/
def logLe (a b : LogRec) : Prop := logCompare a b ≤ 0

instance : DecidableRel logLe :=
  fun a b => decidable_of_iff (logCompare a b ≤ 0) Iff.rfl

instance : IsTotal LogRec logLe := by
  constructor
  intro a b
  unfold logLe logCompare
  split_ifs <;> omega

instance : IsTrans LogRec logLe := by
  constructor
  intro a b c
  unfold logLe logCompare
  split_ifs <;> omega

/-- The sort step `allLogs.sort((a, b) => ...)` of `route.ts`: a comparison sort by
`logCompare`, modelled as insertion sort over the induced order. -/
def sortLogs (logs : List LogRec) : List LogRec := List.insertionSort logLe logs

/-- One round of `fetchLogsInBatches` for one event signature: walk the chunk
sequence, query the oracle per chunk, skip failed chunks (the `catch` branch),
and tag every returned record with the event's name. -/
def fetchLogsInBatches (eventName : String) (fromBlockNum toBlockNum : Nat)
    (fetch : String → Nat × Nat → Option (List LogRec)) : List LogRec :=
  (chunkLoop fromBlockNum toBlockNum).foldl
    (fun logs chunk =>
      match fetch eventName chunk with
      | some batchLogs => logs ++ batchLogs.map (fun l => { l with eventName := eventName })
      | none => logs)
    []

/-- The 400 error of the required-fields validation in `route.ts`. -/
def missingFieldsError : String :=
  "Missing required fields: contractAddress, contractABI, or eventsToTrack"

/-- The 400 error when no tracked name matches an ABI event. -/
def noMatchingEventsError (eventsToTrack : List String) : String :=
  "No matching events found in ABI for: " ++ String.intercalate ", " eventsToTrack

/-- The quantity `totalBlockRange` of `route.ts`: BigInt subtraction, possibly negative. -/
def totalBlockRange (fromBlockNum toBlockNum : Nat) : Int :=
  (toBlockNum : Int) - (fromBlockNum : Int)

/-- The 400 error when `totalBlockRange` exceeds the 50,000-block ceiling. -/
def rangeTooLargeError (range : Int) : String :=
  "Block range too large: " ++ toString range ++
    " blocks. Please use a smaller range (max 50,000 blocks) to prevent timeout."

/-- What the `POST` handler returns, plus the bookkeeping the claims are
about: the chunk sequence its loop visits. -/
structure RunOutcome where
  success : Bool
  error : Option String
  chunksVisited : List (Nat × Nat)
  events : List LogRec
  totalEvents : Nat
deriving DecidableEq

/-- The `POST` handler of `route.ts`, after the network/ABI-parse plumbing:
validation of `eventsToTrack`, signature extraction, the span ceiling, the
per-event batch fetch, and the final sort.  `fromBlockNum`/`toBlockNum` are
the resolved numeric bounds; `fetch` is the RPC oracle (`none` = the chunk's
`getLogs` threw). -/
def processRequest (abi : List ABIItem) (eventsToTrack : List String)
    (fromBlockNum toBlockNum : Nat)
    (fetch : String → Nat × Nat → Option (List LogRec)) : RunOutcome :=
  if eventsToTrack.isEmpty then
    { success := false, error := some missingFieldsError,
      chunksVisited := [], events := [], totalEvents := 0 }
  else
    let eventSignatures := extractEventSignatures abi eventsToTrack
    if eventSignatures.length = 0 then
      { success := false, error := some (noMatchingEventsError eventsToTrack),
        chunksVisited := [], events := [], totalEvents := 0 }
    else if totalBlockRange fromBlockNum toBlockNum > 50000 then
      { success := false,
        error := some (rangeTooLargeError (totalBlockRange fromBlockNum toBlockNum)),
        chunksVisited := [], events := [], totalEvents := 0 }
    else
      let allLogs := eventSignatures.foldl
        (fun acc sig => acc ++ fetchLogsInBatches sig.1 fromBlockNum toBlockNum fetch) []
      let sortedLogs := sortLogs allLogs
      { success := true, error := none,
        chunksVisited := chunkLoop fromBlockNum toBlockNum,
        events := sortedLogs, totalEvents := sortedLogs.length }

/-- One stored `Event` row (`prisma/schema`): the columns the engine reads.
`createdAt` is the insertion timestamp used by the date filters. -/
structure EventRecord where
  blockNumber : Nat
  transactionHash : String
  transactionIndex : Nat
  logIndex : Nat
  contractId : String
  contractAddress : String
  eventName : String
  network : String
  createdAt : Nat
deriving DecidableEq

/-- The composite unique key `Event_transactionHash_logIndex_key`. -/
def eventKey (e : EventRecord) : String × Nat := (e.transactionHash, e.logIndex)

/-- Whether some stored row already carries the key. -/
def hasKey (db : List EventRecord) (k : String × Nat) : Bool :=
  db.any (fun e => eventKey e == k)

/-- The method `DatabaseService.storeEvents`: `prisma.event.createMany` with
`skipDuplicates: true` under the `(transactionHash, logIndex)` unique index —
each record is appended unless a row with its key already exists (in the
table or earlier in the same batch); existing rows are never touched. -/
def storeEvents (db : List EventRecord) (records : List EventRecord) :
    List EventRecord :=
  records.foldl
    (fun acc r => if hasKey acc (eventKey r) then acc else acc ++ [r]) db

/-- One stored `Contract` row: the columns `createOrUpdateContract` writes. -/
structure ContractRow where
  address : String
  abi : List ABIItem
  network : String
  name : Option String
deriving DecidableEq

/-- The method `DatabaseService.createOrUpdateContract`: `prisma.contract.upsert` keyed
on the unique `address` column, with the supplied address used verbatim —
update the matching row's mutable columns if one exists, else append a new
row. -/
def createOrUpdateContract (db : List ContractRow) (address : String)
    (abi : List ABIItem) (network : String) (name : Option String) :
    List ContractRow :=
  if db.any (fun r => r.address == address) then
    db.map (fun r =>
      if r.address == address then
        { r with abi := abi, network := network, name := name }
      else r)
  else
    db ++ [{ address := address, abi := abi, network := network, name := name }]

/-- The `EventFilters` GraphQL input: independently optional, AND-combined. -/
structure EventFilters where
  contractAddress : Option String := none
  eventName : Option String := none
  network : Option String := none
  fromBlock : Option Nat := none
  toBlock : Option Nat := none
  fromDate : Option Nat := none
  toDate : Option Nat := none
deriving DecidableEq

/-- The `where` clause `getEventsWithPagination` builds from the filters. -/
def matchesFilters (f : EventFilters) (e : EventRecord) : Bool :=
  (match f.contractAddress with | some a => e.contractAddress == a | none => true) &&
  (match f.eventName with | some n => e.eventName == n | none => true) &&
  (match f.network with | some n => e.network == n | none => true) &&
  (match f.fromBlock with | some b => decide (b ≤ e.blockNumber) | none => true) &&
  (match f.toBlock with | some b => decide (e.blockNumber ≤ b) | none => true) &&
  (match f.fromDate with | some d => decide (d ≤ e.createdAt) | none => true) &&
  (match f.toDate with | some d => decide (e.createdAt ≤ d) | none => true)

/-- The read-side default order: `orderBy: { blockNumber: 'desc' }`. -/
def blockDescLe (a b : EventRecord) : Prop := b.blockNumber ≤ a.blockNumber

instance : DecidableRel blockDescLe :=
  fun a b => decidable_of_iff (b.blockNumber ≤ a.blockNumber) Iff.rfl

instance : IsTotal EventRecord blockDescLe :=
  ⟨fun a b => Nat.le_total b.blockNumber a.blockNumber⟩

instance : IsTrans EventRecord blockDescLe :=
  ⟨fun _ _ _ h1 h2 => Nat.le_trans h2 h1⟩

/-- The method `DatabaseService.getEventsWithPagination`: filter, count, and one page of
the descending-by-block-height order (`skip offset`, `take limit`).  Returns
`(events, totalCount)`. -/
def getEventsWithPagination (db : List EventRecord) (filters : EventFilters)
    (limit offset : Nat) : List EventRecord × Nat :=
  let filtered := db.filter (matchesFilters filters)
  let sorted := List.insertionSort blockDescLe filtered
  (((sorted.drop offset).take limit), filtered.length)

/-- The resolvers' `Math.ceil(totalCount / limit)`, for `limit ≥ 1`. -/
def ceilDivNat (n l : Nat) : Nat := (n + l - 1) / l

/-- The `EventsResponse` GraphQL payload. -/
structure EventsResponse where
  events : List EventRecord
  totalCount : Nat
  hasNextPage : Bool
  hasPreviousPage : Bool
  currentPage : Nat
  totalPages : Nat
deriving DecidableEq

/-- The `resolvers.Query.getEvents` resolver: offset arithmetic around
`getEventsWithPagination` plus the pagination flags. -/
def getEvents (db : List EventRecord) (filters : EventFilters)
    (page limit : Nat) : EventsResponse :=
  let offset := (page - 1) * limit
  let result := getEventsWithPagination db filters limit offset
  let totalPages := ceilDivNat result.2 limit
  { events := result.1, totalCount := result.2,
    hasNextPage := decide (page < totalPages),
    hasPreviousPage := decide (1 < page),
    currentPage := page, totalPages := totalPages }

/-- The `baseWhere` selector of `getEventsSmartRange`: contract address,
network, and (when supplied) event name. -/
def eventMatchesBase (contractAddress network : String)
    (eventName : Option String) (e : EventRecord) : Bool :=
  e.contractAddress == contractAddress && e.network == network &&
    (match eventName with | some n => e.eventName == n | none => true)

/-- The smart-range page order: `orderBy: [{blockNumber: 'desc'},
{logIndex: 'desc'}]`. -/
def eventDescLe (a b : EventRecord) : Prop :=
  b.blockNumber < a.blockNumber ∨
    (a.blockNumber = b.blockNumber ∧ b.logIndex ≤ a.logIndex)

instance : DecidableRel eventDescLe :=
  fun a b => decidable_of_iff
    (b.blockNumber < a.blockNumber ∨
      (a.blockNumber = b.blockNumber ∧ b.logIndex ≤ a.logIndex)) Iff.rfl

instance : IsTotal EventRecord eventDescLe := by
  constructor
  intro a b
  unfold eventDescLe
  omega

instance : IsTrans EventRecord eventDescLe := by
  constructor
  intro a b c h1 h2
  unfold eventDescLe at *
  omega

/-- The `rangeInfo` the smart-range query returns.  `fromBlock`/`toBlock` are
`Int` because the source computes them as BigInt and `toBlock - 999` can go
negative before the clamp. -/
structure SmartRangeInfo where
  fromBlock : Int
  toBlock : Int
  latestEventBlock : Option Nat
  totalEventsInRange : Nat
  isOptimalRange : Bool
  message : String
deriving DecidableEq

/-- The full `getEventsSmartRange` payload. -/
structure SmartRangeResult where
  events : List EventRecord
  totalCount : Nat
  rangeInfo : SmartRangeInfo
deriving DecidableEq

/-- The method `DatabaseService.getEventsSmartRange`.  `latestNetworkBlock` is the
`BlockchainService.getLatestBlockNumber` oracle (`Except.error` = the fetch
threw).  The `findFirst` with `orderBy: {blockNumber: 'desc'}` is the maximum
stored block height among the matching rows; the source builds the message
before clamping `fromBlock` at zero, and so do we. -/
def getEventsSmartRange (db : List EventRecord)
    (contractAddress network : String) (eventName : Option String)
    (latestNetworkBlock : Except String Nat) (limit offset : Nat) :
    SmartRangeResult :=
  let matching := db.filter (eventMatchesBase contractAddress network eventName)
  let latestEvent : Option Nat := (matching.map (fun e => e.blockNumber)).max?
  let picked : Int × Int × Option Nat × Bool × String :=
    match latestEvent with
    | some b =>
        ((b : Int) - 999, (b : Int), some b, true,
          "Found events up to block " ++ toString (b : Int) ++
            ". Showing range: " ++ toString ((b : Int) - 999) ++ " - " ++
            toString (b : Int) ++ " (1000 blocks)")
    | none =>
      match latestNetworkBlock with
      | .ok nb =>
          ((nb : Int) - 999, (nb : Int), none, false,
            "No events found for this contract. Searching recent blocks: " ++
              toString ((nb : Int) - 999) ++ " - " ++ toString (nb : Int) ++
              " (1000 blocks)")
      | .error _ =>
          ((23000000 : Int) - 999, (23000000 : Int), none, false,
            "Unable to fetch latest block. Using default range: " ++
              toString ((23000000 : Int) - 999) ++ " - " ++
              toString (23000000 : Int) ++ " (1000 blocks)")
  let fromBlock : Int := if picked.1 < 0 then 0 else picked.1
  let toBlock : Int := picked.2.1
  let inRange := matching.filter
    (fun e => decide (fromBlock ≤ (e.blockNumber : Int)) &&
      decide ((e.blockNumber : Int) ≤ toBlock))
  let sorted := List.insertionSort eventDescLe inRange
  { events := (sorted.drop offset).take limit,
    totalCount := inRange.length,
    rangeInfo :=
      { fromBlock := fromBlock, toBlock := toBlock,
        latestEventBlock := picked.2.2.1,
        totalEventsInRange := inRange.length,
        isOptimalRange := picked.2.2.2.1,
        message := picked.2.2.2.2 } }

theorem chunkLoop_concrete :
    chunkLoop 6700000 6701000 =
      [(6700000, 6700499), (6700500, 6700999), (6701000, 6701000)] := by
  have h1 := chunkLoop_eq_cons 6700000 6701000 (by omega)
  have m1 : min (6700000 + MAX_BLOCKS_PER_REQUEST - 1) 6701000 = 6700499 := by
    simp only [MAX_BLOCKS_PER_REQUEST]; omega
  rw [m1] at h1
  norm_num at h1
  have h2 := chunkLoop_eq_cons 6700500 6701000 (by omega)
  have m2 : min (6700500 + MAX_BLOCKS_PER_REQUEST - 1) 6701000 = 6700999 := by
    simp only [MAX_BLOCKS_PER_REQUEST]; omega
  rw [m2] at h2
  norm_num at h2
  have h3 := chunkLoop_eq_cons 6701000 6701000 (by omega)
  have m3 : min (6701000 + MAX_BLOCKS_PER_REQUEST - 1) 6701000 = 6701000 := by
    simp only [MAX_BLOCKS_PER_REQUEST]; omega
  rw [m3] at h3
  norm_num at h3
  have h4 := chunkLoop_eq_nil 6701001 6701000 (by omega)
  rw [h1, h2, h3, h4]

/-- C1: for `fromBlock ≤ toBlock` within the hard ceiling, the chunk loop of
`fetchLogsInBatches` visits an ordered sequence of closed, contiguous,
non-overlapping intervals of length at most 500 whose union is exactly
`[fromBlock, toBlock]`; for `fromBlock = 6700000`, `toBlock = 6701000` it
visits exactly `[6700000, 6700499]`, `[6700500, 6700999]`,
`[6701000, 6701000]`. -/
theorem fetchLogsInBatches_chunking (fromBlockNum toBlockNum : Nat)
    (h1 : fromBlockNum ≤ toBlockNum)
    (h2 : totalBlockRange fromBlockNum toBlockNum ≤ 50000) :
    (chunkLoop fromBlockNum toBlockNum).Chain' (fun p q => q.1 = p.2 + 1) ∧
    (∀ p ∈ chunkLoop fromBlockNum toBlockNum, p.1 ≤ p.2 ∧ p.2 + 1 - p.1 ≤ 500) ∧
    (∀ x : Nat,
      (∃ p ∈ chunkLoop fromBlockNum toBlockNum, p.1 ≤ x ∧ x ≤ p.2) ↔
        (fromBlockNum ≤ x ∧ x ≤ toBlockNum)) ∧
    chunkLoop 6700000 6701000 =
      [(6700000, 6700499), (6700500, 6700999), (6701000, 6701000)] := by
  refine ⟨chunkLoop_chain _ _, ?_, fun x => chunkLoop_cover _ _ x, chunkLoop_concrete⟩
  intro p hp
  have := chunkLoop_bounds fromBlockNum toBlockNum p hp
  simpa [MAX_BLOCKS_PER_REQUEST] using this

theorem fetchLogsInBatches_chunking_witness :
    (6700000 : Nat) ≤ 6701000 ∧ totalBlockRange 6700000 6701000 ≤ 50000 ∧
    ((chunkLoop 6700000 6701000).Chain' (fun p q => q.1 = p.2 + 1) ∧
      (∀ p ∈ chunkLoop 6700000 6701000, p.1 ≤ p.2 ∧ p.2 + 1 - p.1 ≤ 500) ∧
      (∀ x : Nat,
        (∃ p ∈ chunkLoop 6700000 6701000, p.1 ≤ x ∧ x ≤ p.2) ↔
          (6700000 ≤ x ∧ x ≤ 6701000)) ∧
      chunkLoop 6700000 6701000 =
        [(6700000, 6700499), (6700500, 6700999), (6701000, 6701000)]) :=
  ⟨by norm_num, by norm_num [totalBlockRange],
    fetchLogsInBatches_chunking 6700000 6701000 (by norm_num)
      (by norm_num [totalBlockRange])⟩

theorem processRequest_run (abi : List ABIItem) (eventsToTrack : List String)
    (fromBlockNum toBlockNum : Nat)
    (fetch : String → Nat × Nat → Option (List LogRec))
    (hA : eventsToTrack.isEmpty = false)
    (hS : (extractEventSignatures abi eventsToTrack).length ≠ 0)
    (hR : ¬ totalBlockRange fromBlockNum toBlockNum > 50000) :
    processRequest abi eventsToTrack fromBlockNum toBlockNum fetch =
      { success := true, error := none,
        chunksVisited := chunkLoop fromBlockNum toBlockNum,
        events := sortLogs ((extractEventSignatures abi eventsToTrack).foldl
          (fun acc sig => acc ++ fetchLogsInBatches sig.1 fromBlockNum toBlockNum fetch) []),
        totalEvents := (sortLogs ((extractEventSignatures abi eventsToTrack).foldl
          (fun acc sig => acc ++ fetchLogsInBatches sig.1 fromBlockNum toBlockNum fetch)
          [])).length } := by
  simp only [processRequest]
  split_ifs with g1
  · rw [hA] at g1; cases g1
  · rfl

theorem foldl_append_of_nil {α β : Type} (g : α → List β) :
    ∀ (l : List α), (∀ a ∈ l, g a = []) → ∀ acc : List β,
      l.foldl (fun acc a => acc ++ g a) acc = acc := by
  intro l
  induction l with
  | nil => intro _ acc; rfl
  | cons x xs ih =>
    intro h acc
    simp only [List.foldl_cons, h x (by simp)]
    rw [List.append_nil]
    exact ih (fun a ha => h a (by simp [ha])) acc

/-- C5: a span over the 50,000-block hard ceiling is rejected before any
chunk is produced (no chunk visited, no success), with the range-too-large
error whenever the request passed the earlier validations; a span within the
ceiling is never rejected on this ground (the outcome is success or one of
the two earlier validation errors). -/
theorem post_range_ceiling (abi : List ABIItem) (eventsToTrack : List String)
    (fromBlockNum toBlockNum : Nat)
    (fetch : String → Nat × Nat → Option (List LogRec)) :
    (totalBlockRange fromBlockNum toBlockNum > 50000 →
      (processRequest abi eventsToTrack fromBlockNum toBlockNum fetch).success = false ∧
      (processRequest abi eventsToTrack fromBlockNum toBlockNum fetch).chunksVisited = [] ∧
      (processRequest abi eventsToTrack fromBlockNum toBlockNum fetch).events = [] ∧
      (eventsToTrack.isEmpty = false →
        (extractEventSignatures abi eventsToTrack).length ≠ 0 →
        (processRequest abi eventsToTrack fromBlockNum toBlockNum fetch).error =
          some (rangeTooLargeError (totalBlockRange fromBlockNum toBlockNum)))) ∧
    (totalBlockRange fromBlockNum toBlockNum ≤ 50000 →
      (processRequest abi eventsToTrack fromBlockNum toBlockNum fetch).success = true ∨
      (processRequest abi eventsToTrack fromBlockNum toBlockNum fetch).error =
        some missingFieldsError ∨
      (processRequest abi eventsToTrack fromBlockNum toBlockNum fetch).error =
        some (noMatchingEventsError eventsToTrack)) := by
  simp only [processRequest]
  split_ifs with g1 g2 g3
  · refine ⟨fun _ => ⟨rfl, rfl, rfl, fun hne _ => ?_⟩, fun _ => Or.inr (Or.inl rfl)⟩
    rw [g1] at hne; cases hne
  · exact ⟨fun _ => ⟨rfl, rfl, rfl, fun _ hlen => absurd g2 hlen⟩,
      fun _ => Or.inr (Or.inr rfl)⟩
  · exact ⟨fun _ => ⟨rfl, rfl, rfl, fun _ _ => rfl⟩, fun hle => absurd g3 (by omega)⟩
  · exact ⟨fun hgt => absurd hgt g3, fun _ => Or.inl rfl⟩

/-- C10: when the resolved `fromBlock` is strictly greater than the resolved
`toBlock` (on a request that passes the earlier validations), the span check
does not fire, the chunk loop body never executes, no log query is issued,
and the handler reports success with an empty event list and
`totalEvents = 0`. -/
theorem post_inverted_range (abi : List ABIItem) (eventsToTrack : List String)
    (fromBlockNum toBlockNum : Nat)
    (fetch : String → Nat × Nat → Option (List LogRec))
    (h1 : eventsToTrack ≠ [])
    (h2 : extractEventSignatures abi eventsToTrack ≠ [])
    (h3 : toBlockNum < fromBlockNum) :
    (processRequest abi eventsToTrack fromBlockNum toBlockNum fetch).success = true ∧
    (processRequest abi eventsToTrack fromBlockNum toBlockNum fetch).error = none ∧
    (processRequest abi eventsToTrack fromBlockNum toBlockNum fetch).chunksVisited = [] ∧
    (processRequest abi eventsToTrack fromBlockNum toBlockNum fetch).events = [] ∧
    (processRequest abi eventsToTrack fromBlockNum toBlockNum fetch).totalEvents = 0 := by
  have hA : eventsToTrack.isEmpty = false := by
    cases eventsToTrack with
    | nil => exact absurd rfl h1
    | cons x xs => rfl
  have hS : (extractEventSignatures abi eventsToTrack).length ≠ 0 := by
    intro hlen
    exact h2 (List.length_eq_zero.mp hlen)
  have hR : ¬ totalBlockRange fromBlockNum toBlockNum > 50000 := by
    unfold totalBlockRange
    omega
  have hchunk : chunkLoop fromBlockNum toBlockNum = [] :=
    chunkLoop_eq_nil _ _ (by omega)
  have hfold : (extractEventSignatures abi eventsToTrack).foldl
      (fun acc sig => acc ++ fetchLogsInBatches sig.1 fromBlockNum toBlockNum fetch) [] = [] := by
    refine foldl_append_of_nil
      (fun sig : String × ABIItem => fetchLogsInBatches sig.1 fromBlockNum toBlockNum fetch)
      _ ?_ []
    intro sig _
    unfold fetchLogsInBatches
    rw [hchunk]
    rfl
  rw [processRequest_run abi eventsToTrack fromBlockNum toBlockNum fetch hA hS hR]
  rw [hfold]
  exact ⟨rfl, rfl, hchunk, rfl, rfl⟩

/-- The `Transfer` event descriptor of the repository's demo ERC-20 ABI. -/
def transferEventItem : ABIItem :=
  { type := "event", name := some "Transfer",
    inputs := some [{ type := "address", name := "from", indexed := some true },
      { type := "address", name := "to", indexed := some true },
      { type := "uint256", name := "value", indexed := some false }] }

theorem post_inverted_range_witness :
    (["Transfer"] : List String) ≠ [] ∧
    extractEventSignatures [transferEventItem] ["Transfer"] ≠ [] ∧
    (5 : Nat) < 10 ∧
    ((processRequest [transferEventItem] ["Transfer"] 10 5
        (fun _ _ => none)).success = true ∧
      (processRequest [transferEventItem] ["Transfer"] 10 5
        (fun _ _ => none)).error = none ∧
      (processRequest [transferEventItem] ["Transfer"] 10 5
        (fun _ _ => none)).chunksVisited = [] ∧
      (processRequest [transferEventItem] ["Transfer"] 10 5
        (fun _ _ => none)).events = [] ∧
      (processRequest [transferEventItem] ["Transfer"] 10 5
        (fun _ _ => none)).totalEvents = 0) :=
  ⟨by decide, by decide, by decide,
    post_inverted_range _ ["Transfer"] 10 5 (fun _ _ => none)
      (by decide) (by decide) (by decide)⟩

/-- C2 (counterexample): with an interface that contains only `Transfer` and
`eventsToTrack = ["Transfer", "Approval"]`, the signature extraction matches
`Transfer`, so the run does not fail fast — it succeeds with no error. -/
theorem transfer_only_scenario_counterexample :
    extractEventSignatures [transferEventItem] ["Transfer", "Approval"] =
      [("Transfer", transferEventItem)] ∧
    (processRequest [transferEventItem] ["Transfer", "Approval"] 6700000 6701000
      (fun _ _ => some [])).success = true ∧
    (processRequest [transferEventItem] ["Transfer", "Approval"] 6700000 6701000
      (fun _ _ => some [])).error = none := by
  refine ⟨by decide, ?_, ?_⟩ <;>
    rw [processRequest_run [transferEventItem] ["Transfer", "Approval"] 6700000 6701000
      (fun _ _ => some []) (by decide) (by decide) (by decide)]

/-- C2 (amended): the ingestion run fails fast with the error naming all the
requested event names exactly when none of the requested names matches an
event of the interface; a partially matching list (such as `Transfer`
present, `Approval` absent) is not rejected. -/
theorem noMatching_fail_fast (abi : List ABIItem) (eventsToTrack : List String)
    (fromBlockNum toBlockNum : Nat)
    (fetch : String → Nat × Nat → Option (List LogRec))
    (h1 : eventsToTrack ≠ [])
    (h2 : extractEventSignatures abi eventsToTrack = []) :
    (processRequest abi eventsToTrack fromBlockNum toBlockNum fetch).success = false ∧
    (processRequest abi eventsToTrack fromBlockNum toBlockNum fetch).error =
      some (noMatchingEventsError eventsToTrack) ∧
    (processRequest abi eventsToTrack fromBlockNum toBlockNum fetch).chunksVisited = [] ∧
    (processRequest abi eventsToTrack fromBlockNum toBlockNum fetch).events = [] ∧
    noMatchingEventsError ["Transfer", "Approval"] =
      "No matching events found in ABI for: Transfer, Approval" := by
  have hA : ¬ (eventsToTrack.isEmpty = true) := by
    cases eventsToTrack with
    | nil => exact absurd rfl h1
    | cons x xs => simp
  have hS : (extractEventSignatures abi eventsToTrack).length = 0 := by
    rw [h2]; rfl
  simp only [processRequest]
  split_ifs
  exact ⟨rfl, rfl, rfl, rfl, by decide⟩

theorem noMatching_fail_fast_witness :
    (["Approval"] : List String) ≠ [] ∧
    extractEventSignatures [transferEventItem] ["Approval"] = [] ∧
    ((processRequest [transferEventItem] ["Approval"] 6700000 6701000
        (fun _ _ => some [])).success = false ∧
      (processRequest [transferEventItem] ["Approval"] 6700000 6701000
        (fun _ _ => some [])).error = some (noMatchingEventsError ["Approval"]) ∧
      (processRequest [transferEventItem] ["Approval"] 6700000 6701000
        (fun _ _ => some [])).chunksVisited = [] ∧
      (processRequest [transferEventItem] ["Approval"] 6700000 6701000
        (fun _ _ => some [])).events = [] ∧
      noMatchingEventsError ["Transfer", "Approval"] =
        "No matching events found in ABI for: Transfer, Approval") :=
  ⟨by decide, by decide,
    noMatching_fail_fast [transferEventItem] ["Approval"] 6700000 6701000
      (fun _ _ => some []) (by decide) (by decide)⟩

theorem storeEvents_cons (db : List EventRecord) (r : EventRecord)
    (rs : List EventRecord) :
    storeEvents db (r :: rs) =
      storeEvents (if hasKey db (eventKey r) then db else db ++ [r]) rs := rfl

theorem storeEvents_extends (records : List EventRecord) :
    ∀ db : List EventRecord, ∃ rest, storeEvents db records = db ++ rest := by
  induction records with
  | nil => exact fun db => ⟨[], by simp [storeEvents]⟩
  | cons r rs ih =>
    intro db
    rw [storeEvents_cons]
    by_cases h : hasKey db (eventKey r)
    · rw [if_pos h]
      exact ih db
    · rw [if_neg h]
      obtain ⟨rest, hrest⟩ := ih (db ++ [r])
      refine ⟨r :: rest, ?_⟩
      rw [hrest, List.append_assoc]
      rfl

theorem hasKey_append_left (db extra : List EventRecord) (k : String × Nat)
    (h : hasKey db k = true) : hasKey (db ++ extra) k = true := by
  unfold hasKey at *
  rw [List.any_append, h]
  rfl

theorem hasKey_storeEvents_mono (records : List EventRecord) :
    ∀ (db : List EventRecord) (k : String × Nat),
      hasKey db k = true → hasKey (storeEvents db records) k = true := by
  induction records with
  | nil => exact fun _ _ h => h
  | cons r rs ih =>
    intro db k h
    rw [storeEvents_cons]
    by_cases hk : hasKey db (eventKey r)
    · rw [if_pos hk]
      exact ih db k h
    · rw [if_neg hk]
      exact ih (db ++ [r]) k (hasKey_append_left db [r] k h)

theorem hasKey_storeEvents_of_mem (records : List EventRecord) :
    ∀ (db : List EventRecord) (r : EventRecord), r ∈ records →
      hasKey (storeEvents db records) (eventKey r) = true := by
  induction records with
  | nil =>
    intro db r h
    simp at h
  | cons x xs ih =>
    intro db r h
    rw [storeEvents_cons]
    rcases List.mem_cons.mp h with rfl | h
    · by_cases hk : hasKey db (eventKey r)
      · rw [if_pos hk]
        exact hasKey_storeEvents_mono xs db _ hk
      · rw [if_neg hk]
        apply hasKey_storeEvents_mono xs
        unfold hasKey
        rw [List.any_append]
        have hone : [r].any (fun e => eventKey e == eventKey r) = true := by simp
        rw [hone, Bool.or_true]
    · by_cases hk : hasKey db (eventKey x)
      · rw [if_pos hk]
        exact ih db r h
      · rw [if_neg hk]
        exact ih (db ++ [x]) r h

theorem storeEvents_skips (records : List EventRecord) :
    ∀ db : List EventRecord,
      (∀ r ∈ records, hasKey db (eventKey r) = true) → storeEvents db records = db := by
  induction records with
  | nil => exact fun _ _ => rfl
  | cons x xs ih =>
    intro db h
    rw [storeEvents_cons, if_pos (h x (by simp))]
    exact ih db (fun r hr => h r (by simp [hr]))

/-- C3: `storeEvents` is idempotent: storing the same batch twice leaves
exactly the rows of storing it once; stored rows are never mutated (the
prior table is a prefix of the result); a batch whose keys all already exist
is skipped entirely. -/
theorem storeEvents_idempotent (db records : List EventRecord) :
    storeEvents (storeEvents db records) records = storeEvents db records ∧
    (∃ rest, storeEvents db records = db ++ rest) ∧
    ((∀ r ∈ records, hasKey db (eventKey r) = true) → storeEvents db records = db) :=
  ⟨storeEvents_skips records _
      (fun r hr => hasKey_storeEvents_of_mem records db r hr),
    storeEvents_extends records db,
    storeEvents_skips records db⟩

theorem jsNumber_eq_self (n : Nat) (h : n < 2 ^ 53) : jsNumber n = n := by
  unfold jsNumber ulpExp ulpExpAux roundNearestEven
  rw [if_pos h]
  simp [Nat.mod_one]

/-- C4 (counterexample): the comparator converts the BigInt block heights
with `Number(...)`, which merges `2 ^ 53` and `2 ^ 53 + 1`; the block
difference reads as zero, the tie falls through to the log indices, and the
sort puts the higher true block height first — the claimed block order is
violated. -/
theorem sortLogs_lossy_counterexample :
    sortLogs
        [{ blockNumber := 9007199254740993, logIndex := 0,
           transactionHash := "0xt1", eventName := "Transfer" },
         { blockNumber := 9007199254740992, logIndex := 1,
           transactionHash := "0xt2", eventName := "Transfer" }] =
      [{ blockNumber := 9007199254740993, logIndex := 0,
         transactionHash := "0xt1", eventName := "Transfer" },
       { blockNumber := 9007199254740992, logIndex := 1,
         transactionHash := "0xt2", eventName := "Transfer" }] ∧
    ¬ (sortLogs
        [{ blockNumber := 9007199254740993, logIndex := 0,
           transactionHash := "0xt1", eventName := "Transfer" },
         { blockNumber := 9007199254740992, logIndex := 1,
           transactionHash := "0xt2", eventName := "Transfer" }]).Pairwise
      (fun a b => a.blockNumber ≤ b.blockNumber ∧
        (a.blockNumber = b.blockNumber → a.logIndex ≤ b.logIndex)) := by
  have heq : sortLogs
      [{ blockNumber := 9007199254740993, logIndex := 0,
         transactionHash := "0xt1", eventName := "Transfer" },
       { blockNumber := 9007199254740992, logIndex := 1,
         transactionHash := "0xt2", eventName := "Transfer" }] =
      [{ blockNumber := 9007199254740993, logIndex := 0,
         transactionHash := "0xt1", eventName := "Transfer" },
       { blockNumber := 9007199254740992, logIndex := 1,
         transactionHash := "0xt2", eventName := "Transfer" }] := by decide
  refine ⟨heq, ?_⟩
  rw [heq, List.pairwise_cons]
  rintro ⟨h1, -⟩
  have h2 := h1 _ (List.mem_cons_self _ _)
  exact absurd h2.1 (by decide)

/-- C4 (amended): for fetched records whose block heights and log indices
are below `2 ^ 53` (exactly representable in an IEEE double, so the
comparator's `Number(...)` conversion is injective), the aggregated
pre-storage sequence is a permutation of the fetched records that is
non-decreasing in block height, with ties non-decreasing in log index.  At
or above `2 ^ 53` the conversion can merge distinct heights and break the
order. -/
theorem sortLogs_canonical_order (logs : List LogRec)
    (hsmall : ∀ l ∈ logs, l.blockNumber < 2 ^ 53 ∧ l.logIndex < 2 ^ 53) :
    (sortLogs logs).Pairwise (fun a b =>
      a.blockNumber ≤ b.blockNumber ∧
        (a.blockNumber = b.blockNumber → a.logIndex ≤ b.logIndex)) ∧
    (sortLogs logs).Perm logs := by
  constructor
  · have h : List.Pairwise logLe (sortLogs logs) := List.sorted_insertionSort logLe logs
    refine h.imp_of_mem ?_
    intro a b ha hb hab
    have ha' : a ∈ logs := by
      unfold sortLogs at ha
      simpa using ha
    have hb' : b ∈ logs := by
      unfold sortLogs at hb
      simpa using hb
    obtain ⟨hab1, hab2⟩ := hsmall a ha'
    obtain ⟨hbb1, hbb2⟩ := hsmall b hb'
    unfold logLe logCompare at hab
    rw [jsNumber_eq_self _ hab1, jsNumber_eq_self _ hab2,
      jsNumber_eq_self _ hbb1, jsNumber_eq_self _ hbb2] at hab
    split_ifs at hab <;> omega
  · exact List.perm_insertionSort logLe logs

theorem sortLogs_canonical_order_witness :
    (∀ l ∈ ([{ blockNumber := 5, logIndex := 1,
                transactionHash := "0xa", eventName := "Transfer" },
              { blockNumber := 3, logIndex := 0,
                transactionHash := "0xb", eventName := "Transfer" }] : List LogRec),
        l.blockNumber < 2 ^ 53 ∧ l.logIndex < 2 ^ 53) ∧
    ((sortLogs [{ blockNumber := 5, logIndex := 1,
                  transactionHash := "0xa", eventName := "Transfer" },
                { blockNumber := 3, logIndex := 0,
                  transactionHash := "0xb", eventName := "Transfer" }]).Pairwise
        (fun a b => a.blockNumber ≤ b.blockNumber ∧
          (a.blockNumber = b.blockNumber → a.logIndex ≤ b.logIndex)) ∧
      (sortLogs [{ blockNumber := 5, logIndex := 1,
                   transactionHash := "0xa", eventName := "Transfer" },
                 { blockNumber := 3, logIndex := 0,
                   transactionHash := "0xb", eventName := "Transfer" }]).Perm
        [{ blockNumber := 5, logIndex := 1,
           transactionHash := "0xa", eventName := "Transfer" },
         { blockNumber := 3, logIndex := 0,
           transactionHash := "0xb", eventName := "Transfer" }]) :=
  ⟨by decide,
    sortLogs_canonical_order
      [{ blockNumber := 5, logIndex := 1,
         transactionHash := "0xa", eventName := "Transfer" },
       { blockNumber := 3, logIndex := 0,
         transactionHash := "0xb", eventName := "Transfer" }] (by decide)⟩

/-- C6: the smart-range resolver returns a 1000-block window: with stored
events for the selector, `toBlock` is the maximum stored block height,
`fromBlock` is `toBlock - 999` clamped at zero, and the range is optimal;
with no stored events, `toBlock` is the live chain head and the range is not
optimal; when the chain-head fetch fails, `toBlock` is the fixed sentinel
`23000000` with the degraded message. -/
theorem getEventsSmartRange_window (db : List EventRecord)
    (contractAddress network : String) (eventName : Option String)
    (latestNetworkBlock : Except String Nat) (limit offset : Nat) :
    (∀ b : Nat,
      ((db.filter (eventMatchesBase contractAddress network eventName)).map
        (fun e => e.blockNumber)).max? = some b →
      (getEventsSmartRange db contractAddress network eventName
          latestNetworkBlock limit offset).rangeInfo.toBlock = (b : Int) ∧
      (getEventsSmartRange db contractAddress network eventName
          latestNetworkBlock limit offset).rangeInfo.fromBlock =
        max ((b : Int) - 999) 0 ∧
      (getEventsSmartRange db contractAddress network eventName
          latestNetworkBlock limit offset).rangeInfo.latestEventBlock = some b ∧
      (getEventsSmartRange db contractAddress network eventName
          latestNetworkBlock limit offset).rangeInfo.isOptimalRange = true ∧
      (∀ e ∈ db.filter (eventMatchesBase contractAddress network eventName),
        e.blockNumber ≤ b) ∧
      (∃ e ∈ db.filter (eventMatchesBase contractAddress network eventName),
        e.blockNumber = b)) ∧
    (∀ nb : Nat,
      db.filter (eventMatchesBase contractAddress network eventName) = [] →
      latestNetworkBlock = Except.ok nb →
      (getEventsSmartRange db contractAddress network eventName
          latestNetworkBlock limit offset).rangeInfo.toBlock = (nb : Int) ∧
      (getEventsSmartRange db contractAddress network eventName
          latestNetworkBlock limit offset).rangeInfo.fromBlock =
        max ((nb : Int) - 999) 0 ∧
      (getEventsSmartRange db contractAddress network eventName
          latestNetworkBlock limit offset).rangeInfo.latestEventBlock = none ∧
      (getEventsSmartRange db contractAddress network eventName
          latestNetworkBlock limit offset).rangeInfo.isOptimalRange = false) ∧
    (∀ msg : String,
      db.filter (eventMatchesBase contractAddress network eventName) = [] →
      latestNetworkBlock = Except.error msg →
      (getEventsSmartRange db contractAddress network eventName
          latestNetworkBlock limit offset).rangeInfo =
        { fromBlock := 22999001, toBlock := 23000000, latestEventBlock := none,
          totalEventsInRange := 0, isOptimalRange := false,
          message := "Unable to fetch latest block. Using default range: " ++
            toString ((23000000 : Int) - 999) ++ " - " ++
            toString (23000000 : Int) ++ " (1000 blocks)" }) := by
  refine ⟨?_, ?_, ?_⟩
  · intro b hb
    have hmax := (List.max?_eq_some_iff' (a := b)).mp hb
    refine ⟨?_, ?_, ?_, ?_, ?_, ?_⟩
    · simp only [getEventsSmartRange, hb]
    · simp only [getEventsSmartRange, hb]
      split_ifs with h <;> omega
    · simp only [getEventsSmartRange, hb]
    · simp only [getEventsSmartRange, hb]
    · intro e he
      exact hmax.2 e.blockNumber (List.mem_map_of_mem (fun e => e.blockNumber) he)
    · obtain ⟨e, he, heq⟩ := List.mem_map.mp hmax.1
      exact ⟨e, he, heq⟩
  · intro nb hempty hok
    have hnone : ((db.filter (eventMatchesBase contractAddress network
        eventName)).map (fun e => e.blockNumber)).max? = none := by
      rw [hempty]
      rfl
    refine ⟨?_, ?_, ?_, ?_⟩
    · simp only [getEventsSmartRange, hnone, hok]
    · simp only [getEventsSmartRange, hnone, hok]
      split_ifs with h <;> omega
    · simp only [getEventsSmartRange, hnone, hok]
    · simp only [getEventsSmartRange, hnone, hok]
  · intro msg hempty herr
    have hnone : ((db.filter (eventMatchesBase contractAddress network
        eventName)).map (fun e => e.blockNumber)).max? = none := by
      rw [hempty]
      rfl
    simp only [getEventsSmartRange, hnone, herr, hempty]
    rfl

theorem ceilDivNat_mul_ge (n l : Nat) (hl : 1 ≤ l) : n ≤ ceilDivNat n l * l := by
  unfold ceilDivNat
  rcases Nat.eq_zero_or_pos n with h0 | h1
  · subst h0
    exact Nat.zero_le _
  · obtain ⟨m, rfl⟩ : ∃ m, n = m + 1 := ⟨n - 1, by omega⟩
    have hrw : m + 1 + l - 1 = m + l := by omega
    rw [hrw, Nat.add_div_right m hl]
    have h4 := Nat.div_add_mod m l
    have h3 : m % l < l := Nat.mod_lt _ (by omega)
    have h5 : (m / l + 1) * l = l * (m / l) + l := by ring
    rw [h5]
    linarith [h4, h3]

theorem ceilDivNat_mul_lt (n l : Nat) (hl : 1 ≤ l) : ceilDivNat n l * l < n + l := by
  unfold ceilDivNat
  have h := Nat.div_mul_le_self (n + l - 1) l
  have h2 : n + l - 1 < n + l := by omega
  exact lt_of_le_of_lt h h2

/-- C7: the pagination law of `getEvents`: `totalPages` is the ceiling of
`totalCount / limit` (characterised by its two bounds), the page flags are
`currentPage < totalPages` and `currentPage > 1`, and requesting page
`totalPages + 1` yields zero events with `hasNextPage = false`. -/
theorem getEvents_pagination_law (db : List EventRecord) (filters : EventFilters)
    (page limit : Nat) (hp : 1 ≤ page) (hl : 1 ≤ limit) :
    (getEvents db filters page limit).totalPages =
      ceilDivNat (getEvents db filters page limit).totalCount limit ∧
    (getEvents db filters page limit).totalCount ≤
      (getEvents db filters page limit).totalPages * limit ∧
    (getEvents db filters page limit).totalPages * limit <
      (getEvents db filters page limit).totalCount + limit ∧
    (getEvents db filters page limit).hasNextPage =
      decide ((getEvents db filters page limit).currentPage <
        (getEvents db filters page limit).totalPages) ∧
    (getEvents db filters page limit).hasPreviousPage =
      decide (1 < (getEvents db filters page limit).currentPage) ∧
    (getEvents db filters page limit).currentPage = page ∧
    (getEvents db filters ((getEvents db filters page limit).totalPages + 1)
      limit).events = [] ∧
    (getEvents db filters ((getEvents db filters page limit).totalPages + 1)
      limit).hasNextPage = false := by
  have hev : ∀ N : Nat, (getEvents db filters N limit).events =
      ((List.insertionSort blockDescLe (db.filter (matchesFilters filters))).drop
        ((N - 1) * limit)).take limit := fun _ => rfl
  have hnp : ∀ N : Nat, (getEvents db filters N limit).hasNextPage =
      decide (N < ceilDivNat (db.filter (matchesFilters filters)).length limit) :=
    fun _ => rfl
  have htp : (getEvents db filters page limit).totalPages =
      ceilDivNat (db.filter (matchesFilters filters)).length limit := rfl
  refine ⟨rfl, ceilDivNat_mul_ge _ limit hl, ceilDivNat_mul_lt _ limit hl,
    rfl, rfl, rfl, ?_, ?_⟩
  · rw [hev, htp, Nat.add_sub_cancel]
    rw [List.drop_eq_nil_of_le]
    · exact List.take_nil
    · rw [List.length_insertionSort blockDescLe]
      exact ceilDivNat_mul_ge _ limit hl
  · rw [hnp, htp]
    exact decide_eq_false (by omega)

theorem getEvents_pagination_law_witness :
    (1 : Nat) ≤ 1 ∧ (1 : Nat) ≤ 2 ∧
    ((getEvents [] {} 1 2).totalPages =
        ceilDivNat (getEvents [] {} 1 2).totalCount 2 ∧
      (getEvents [] {} 1 2).totalCount ≤ (getEvents [] {} 1 2).totalPages * 2 ∧
      (getEvents [] {} 1 2).totalPages * 2 <
        (getEvents [] {} 1 2).totalCount + 2 ∧
      (getEvents [] {} 1 2).hasNextPage =
        decide ((getEvents [] {} 1 2).currentPage <
          (getEvents [] {} 1 2).totalPages) ∧
      (getEvents [] {} 1 2).hasPreviousPage =
        decide (1 < (getEvents [] {} 1 2).currentPage) ∧
      (getEvents [] {} 1 2).currentPage = 1 ∧
      (getEvents [] {} ((getEvents [] {} 1 2).totalPages + 1) 2).events = [] ∧
      (getEvents [] {} ((getEvents [] {} 1 2).totalPages + 1) 2).hasNextPage =
        false) :=
  ⟨by decide, by decide,
    getEvents_pagination_law [] {} 1 2 (by decide) (by decide)⟩

/-- C8 (counterexample): `createOrUpdateContract` does not lowercase the
supplied address: upserting `"0xAB"` stores `"0xAB"` verbatim, and a second
upsert of the case-variant `"0xab"` creates a second row rather than
refreshing the first. -/
theorem createOrUpdateContract_case_counterexample :
    (createOrUpdateContract [] "0xAB" [] "sepolia" none).map
        (fun r => r.address) = ["0xAB"] ∧
    (createOrUpdateContract (createOrUpdateContract [] "0xAB" [] "sepolia" none)
        "0xab" [] "sepolia" none).length = 2 ∧
    ("0xAB" : String) ≠ "0xab" := by
  decide

/-- C8 (amended): `createOrUpdateContract` keys the upsert on the supplied
address string verbatim: the stored address list gains the address exactly as
supplied when no row matches it exactly, and two upserts with addresses that
differ (even only in letter case) create two distinct rows. -/
theorem createOrUpdateContract_verbatim (db : List ContractRow) (a b : String)
    (abi : List ABIItem) (network : String) (name : Option String)
    (hne : a ≠ b) :
    ((createOrUpdateContract db a abi network name).map (fun r => r.address) =
      if db.any (fun r => r.address == a) then db.map (fun r => r.address)
      else db.map (fun r => r.address) ++ [a]) ∧
    (createOrUpdateContract (createOrUpdateContract [] a abi network name)
      b abi network name).length = 2 := by
  constructor
  · unfold createOrUpdateContract
    by_cases h : db.any (fun r => r.address == a)
    · rw [if_pos h, if_pos h, List.map_map]
      apply List.map_congr_left
      intro r _
      simp only [Function.comp]
      split_ifs <;> rfl
    · rw [if_neg h, if_neg h, List.map_append]
      rfl
  · have hfirst : createOrUpdateContract [] a abi network name =
        [{ address := a, abi := abi, network := network, name := name }] := rfl
    rw [hfirst]
    have hcond : (a == b) = false := beq_eq_false_iff_ne.mpr hne
    unfold createOrUpdateContract
    simp [hcond]

theorem createOrUpdateContract_verbatim_witness :
    ("0xAB" : String) ≠ "0xab" ∧
    (((createOrUpdateContract [] "0xAB" [] "sepolia" none).map
        (fun r => r.address) =
      if ([] : List ContractRow).any (fun r => r.address == "0xAB") then
        ([] : List ContractRow).map (fun r => r.address)
      else ([] : List ContractRow).map (fun r => r.address) ++ ["0xAB"]) ∧
    (createOrUpdateContract (createOrUpdateContract [] "0xAB" [] "sepolia" none)
      "0xab" [] "sepolia" none).length = 2) :=
  ⟨by decide,
    createOrUpdateContract_verbatim [] "0xAB" "0xab" [] "sepolia" none
      (by decide)⟩

/-- C9: for every filter combination, the page `getEventsWithPagination`
returns is ordered descending by block height (most-recent-first). -/
theorem getEventsWithPagination_desc_order (db : List EventRecord)
    (filters : EventFilters) (limit offset : Nat) :
    ((getEventsWithPagination db filters limit offset).1).Pairwise
      (fun a b => b.blockNumber ≤ a.blockNumber) := by
  have hs : List.Pairwise blockDescLe
      (List.insertionSort blockDescLe (db.filter (matchesFilters filters))) :=
    List.sorted_insertionSort blockDescLe _
  have hsub : (((List.insertionSort blockDescLe
        (db.filter (matchesFilters filters))).drop offset).take limit).Sublist
      (List.insertionSort blockDescLe (db.filter (matchesFilters filters))) :=
    (List.take_sublist _ _).trans (List.drop_sublist _ _)
  exact hs.sublist hsub

end Indexer
